import Mathlib

/-!
Verification of the one-wire bus driver (`src/lib/onewire/onewire.cpp`).

The development shallowly embeds the edge-triggered frame decoder
(`handleOneWireInput`), the blocking bit transmitter (`sendData`) and the
controller request path (`requestOneWire`).  Machine integers are modelled as
`Nat`/`Int` with explicit reduction modulo `2^32` (for `unsigned long` /
`uint32_t` values) and modulo `256` (for `uint8_t` counters) exactly where the
C code can overflow.  Interrupt-context execution is modelled by feeding the
decoder an explicit list of timestamped line edges.
-/

namespace OneWire

/-- Period for each bit in microseconds (`const uint8_t bitPeriod = 80`). -/
def bitPeriod : Nat := 80

/-- Minimum period a pulse is held (`const uint8_t pulsePeriod = 25`). -/
def pulsePeriod : Nat := 25

/-- Number of bits for device addresses (`const uint8_t addressWidth = 4`). -/
def addressWidth : Nat := 4

/-- Number of bits of a data frame (`const uint8_t dataWidth = 24`). -/
def dataWidth : Nat := 24

/-- Modulus of the 32-bit machine words (`unsigned long` / `uint32_t` on AVR). -/
def U32 : Nat := 2 ^ 32

/-- Wrapping 32-bit subtraction, the value of `a - b` computed on
`unsigned long` operands (as in `delta = present - lastEdge`). -/
def uSub (a b : Nat) : Nat := (a + (U32 - b % U32)) % U32

/-- Conversion of a `uint32_t` bit pattern to the `int32_t` value it is
assigned to (two's complement reinterpretation). -/
def int32OfUInt32 (n : Nat) : Int :=
  if n % U32 < 2 ^ 31 then ((n % U32 : Nat) : Int)
  else ((n % U32 : Nat) : Int) - 2 ^ 32

/-- Conversion of an `int32_t` value to the `uint32_t` argument it is passed
as (reduction modulo `2^32`, as in `sendData(oneWirePayloadOut, dataWidth)`). -/
def uint32OfInt (v : Int) : Nat := (v % (U32 : Int)).toNat

/-- Static configuration registers established by `setupOneWire`:
`pinRX`, `pinTX`, `oneWireAddress` and `oneWireListener`. -/
structure Config where
  pinRX : Nat
  pinTX : Nat
  oneWireAddress : Nat
  oneWireListener : Bool
deriving DecidableEq, Repr

/-- The decoder's `static` locals in `handleOneWireInput`:
`lastEdge`, `bitCount`, `ignoreCount` and `tempData`.  All four are
zero-initialised at program start. -/
structure DecoderState where
  lastEdge : Nat
  bitCount : Nat
  ignoreCount : Nat
  tempData : Nat
deriving DecidableEq, Repr

/-- The zero-initialised power-on value of the decoder's static state. -/
def initialState : DecoderState := ⟨0, 0, 0, 0⟩

/-- The shared payload registers `oneWirePayloadOut`, `oneWirePayloadIn`
and `oneWireMessageReceived`. -/
structure Payloads where
  oneWirePayloadOut : Int
  oneWirePayloadIn : Int
  oneWireMessageReceived : Bool
deriving DecidableEq, Repr

/-- Sign extension performed by the controller branch of
`handleOneWireInput`: `tempData | (0xFFFFFFFF << (dataWidth - 1))` when bit
`dataWidth - 1` of `tempData` is set, else `tempData`, assigned to the
`int32_t` register `oneWirePayloadIn`. -/
def signExtendData (tempData : Nat) : Int :=
  if tempData &&& ((1 <<< (dataWidth - 1)) % U32) ≠ 0 then
    int32OfUInt32 (tempData ||| ((0xFFFFFFFF <<< (dataWidth - 1)) % U32))
  else
    int32OfUInt32 tempData

/-- One invocation of the edge-interrupt handler `handleOneWireInput`.
Inputs are the current `micros()` timestamp and the level read by
`digitalRead(pinRX)`.  The result is the updated decoder state, the updated
payload registers, and `some (data, width)` when the handler called
`sendData(data, width)` (listener address match). -/
def handleOneWireInput (cfg : Config) (present : Nat) (reading : Bool)
    (st : DecoderState) (pay : Payloads) :
    DecoderState × Payloads × Option (Nat × Nat) :=
  let delta := uSub present st.lastEdge
  if delta < 3 * pulsePeriod then
    (st, pay, none)
  else
    let st1 : DecoderState := { st with lastEdge := present }
    if 2 * bitPeriod < delta then
      ({ st1 with bitCount := 0, ignoreCount := 0, tempData := 0 }, pay, none)
    else if st1.ignoreCount ≠ 0 then
      ({ st1 with ignoreCount := st1.ignoreCount - 1 }, pay, none)
    else
      let tempData := (2 * st1.tempData + (if reading then 1 else 0)) % U32
      let bitCount := (st1.bitCount + 1) % 256
      let st2 : DecoderState := { st1 with tempData := tempData, bitCount := bitCount }
      if cfg.oneWireListener then
        if st2.bitCount = addressWidth then
          if st2.tempData = cfg.oneWireAddress then
            ({ st2 with bitCount := 0, tempData := 0 }, pay,
              some (uint32OfInt pay.oneWirePayloadOut, dataWidth))
          else
            ({ st2 with ignoreCount := dataWidth, bitCount := 0, tempData := 0 },
              pay, none)
        else
          (st2, pay, none)
      else
        if st2.bitCount = dataWidth then
          let pay1 : Payloads :=
            { pay with oneWireMessageReceived := true,
                       oneWirePayloadIn := signExtendData st2.tempData }
          ({ st2 with bitCount := 0, ignoreCount := 0, tempData := 0 }, pay1, none)
        else
          (st2, pay, none)

/-- Successive invocations of `handleOneWireInput` on a list of timestamped
edges (each entry is the `micros()` time of the edge and the line level right
after it).  Collects every `sendData` call the handler makes. -/
def runDecoder (cfg : Config) (st : DecoderState) (pay : Payloads) :
    List (Nat × Bool) → DecoderState × Payloads × List (Nat × Nat)
  | [] => (st, pay, [])
  | e :: rest =>
    let r1 := handleOneWireInput cfg e.1 e.2 st pay
    let r2 := runDecoder cfg r1.1 r1.2.1 rest
    (r2.1, r2.2.1, r1.2.2.toList ++ r2.2.2)

/-- Timestamped levels written to the transmit pin by `sendData(data, width)`
when the first write happens at time `t`: the loop runs `i` from `width` down
to `1`, writes the current bit (`(1L << (i-1)) & data`), holds it for
`bitPeriod - pulsePeriod` µs, writes the inverted bit, holds it for
`pulsePeriod` µs, and finally releases the pin low. -/
def sendDataTx (data : Nat) : Nat → Nat → List (Nat × Bool)
  | 0, t => [(t, false)]
  | i + 1, t =>
    let mask := (1 <<< i) % U32
    let currentBit := mask &&& data != 0
    (t, currentBit) :: (t + (bitPeriod - pulsePeriod), !currentBit) ::
      sendDataTx data i (t + bitPeriod)

/-- Modelled from the spec: the physical coupling between the transmit pin and
the bus line sensed by `pinRX` is not part of the repository's code (only the
hardware has it).  The transmit pin drives the shared line through the one-wire
transistor, which inverts: writing the pin HIGH pulls the line low (the code's
own comment in `requestOneWire` — "Pull line down for a half period" — and the
released line, transmit pin low, is the idle-high state).  So the bus level is
the negation of every transmitted level. -/
def busWrites (data width t0 : Nat) : List (Nat × Bool) :=
  (sendDataTx data width t0).map (fun p => (p.1, !p.2))

/-- Edges of a waveform: given the current line level and a list of
timestamped level writes, keep exactly the writes that change the level. -/
def edgesFrom (level : Bool) : List (Nat × Bool) → List (Nat × Bool)
  | [] => []
  | (t, l) :: rest =>
    if l = level then edgesFrom level rest else (t, l) :: edgesFrom l rest

/-- The edge sequence a receiver observes on the bus while `sendData(data,
width)` runs with its first pin write at time `t0`, starting from the
idle (released, high) bus level. -/
def sendDataEdges (data width t0 : Nat) : List (Nat × Bool) :=
  edgesFrom true (busWrites data width t0)

/-- Value of `millis()` observed at the `k`-th poll of the wait loop in
`requestOneWire`, when the transmission finished at millisecond `m`: the
clock advances by at most one tick per poll, modulo `2^32`. -/
def millisAt (m k : Nat) : Nat := (m + k) % U32

/-- The deadline `timeoutMark = millis() + 10` computed in 32-bit unsigned
arithmetic. -/
def timeoutMark (m : Nat) : Nat := (m + 10) % U32

/-- The busy-wait loop `while (!oneWireMessageReceived && (millis() <
timeoutMark))` of `requestOneWire`: returns the poll index at which the loop
exits.  `flag k` is the value of `oneWireMessageReceived` observed at poll
`k` (it is written concurrently by the interrupt handler).  The fuel `11`
suffices because the loop runs at most 10 ticks past `m`. -/
def waitLoopGo (flag : Nat → Bool) (m : Nat) : Nat → Nat → Nat
  | 0, k => k
  | fuel + 1, k =>
    if !flag k && decide (millisAt m k < timeoutMark m) then
      waitLoopGo flag m fuel (k + 1)
    else k

/-- Poll index at which `requestOneWire`'s wait loop exits. -/
def waitExit (flag : Nat → Bool) (m : Nat) : Nat := waitLoopGo flag m 11 0

/-- Environment a call of `requestOneWire` executes in: the value the
`oneWireMessageReceived` flag has at each poll of the wait loop (the
interrupt handler drives it), and the value `oneWirePayloadIn` holds when the
function reads it after the loop. -/
structure ReqEnv where
  flag : Nat → Bool
  inVal : Int

/-- Result of a call of `requestOneWire`: the value stored through
`destination`, the value of `oneWireMessageReceived` on return, and the
ordered list of `digitalWrite` calls (pin, level) the call performed. -/
structure ReqResult where
  destination : Int
  messageReceivedAfter : Bool
  pinWrites : List (Nat × Bool)

/-- One call of `requestOneWire(targetAdd, destination)`: wake pulse on the
transmit pin, `sendData(targetAdd, addressWidth)`, busy-wait until
`oneWireMessageReceived` or `millis() < timeoutMark` fails, `digitalWrite(13,
HIGH)`, then store `oneWirePayloadIn` (flag observed) or `0` (timeout) and
clear the flag.  `m` is the `millis()` value at the first poll. -/
def requestOneWire (cfg : Config) (targetAdd : Nat) (m : Nat) (env : ReqEnv) :
    ReqResult :=
  let txWrites :=
    (sendDataTx targetAdd addressWidth 0).map (fun p => (cfg.pinTX, p.2))
  let e := waitExit env.flag m
  { destination := if env.flag e then env.inVal else 0
    messageReceivedAfter := false
    pinWrites := ((cfg.pinTX, true) :: txWrites) ++ [(13, true)] }

/-- Edge timestamps whose successive gaps all lie in the accepted window
`[3 * pulsePeriod, 2 * bitPeriod]` relative to the previous edge (starting
from reference time `last`), with every timestamp below `2^32`. -/
def spaced (last : Nat) : List (Nat × Bool) → Bool
  | [] => true
  | (t, _) :: rest =>
    decide (last + 3 * pulsePeriod ≤ t) && decide (t ≤ last + 2 * bitPeriod) &&
      decide (t < U32) && spaced t rest

/-- Timestamp of the last entry of an edge list, or `last` if it is empty. -/
def lastTime (last : Nat) : List (Nat × Bool) → Nat
  | [] => last
  | (t, _) :: rest => lastTime t rest

/-- Decoder-state invariant: the bit counter stays strictly below the width of
the frame the fixed role assembles, and a zero bit counter always comes with a
zero shift register. -/
def DecoderInv (cfg : Config) (st : DecoderState) : Prop :=
  st.bitCount < (if cfg.oneWireListener then addressWidth else dataWidth) ∧
    (st.bitCount = 0 → st.tempData = 0)

/- ## Basic arithmetic facts -/

theorem U32_val : U32 = 4294967296 := by norm_num [U32]

theorem uSub_eq_sub {a b : Nat} (hba : b ≤ a) (h : a - b < U32) (hb : b < U32) :
    uSub a b = a - b := by
  unfold uSub
  rw [Nat.mod_eq_of_lt hb]
  have h2 : a + (U32 - b) = (a - b) + U32 := by omega
  rw [h2, Nat.add_mod_right, Nat.mod_eq_of_lt h]

/- ## Single-step facts about the edge handler -/

theorem glitch_step (cfg : Config) (st : DecoderState) (pay : Payloads)
    (present : Nat) (reading : Bool)
    (h : uSub present st.lastEdge < 3 * pulsePeriod) :
    handleOneWireInput cfg present reading st pay = (st, pay, none) := by
  unfold handleOneWireInput
  simp [h]

theorem glitch_run (cfg : Config) (st : DecoderState) (pay : Payloads)
    (es : List (Nat × Bool))
    (h : ∀ e ∈ es, uSub e.1 st.lastEdge < 3 * pulsePeriod) :
    runDecoder cfg st pay es = (st, pay, []) := by
  induction es with
  | nil => rfl
  | cons e rest ih =>
    have h1 := h e (List.mem_cons_self e rest)
    simp [runDecoder, glitch_step cfg st pay e.1 e.2 h1,
      ih (fun x hx => h x (List.mem_cons_of_mem e hx))]

/-- C5: an invocation of `handleOneWireInput` whose edge gap `delta` satisfies
`delta ≥ 3 * pulsePeriod` and `delta > 2 * bitPeriod` resets `bitCount`,
`ignoreCount` and `tempData` to zero, updates `lastEdge` to the current time,
does not count the edge as a bit, and changes nothing else (payload registers
untouched, no transmission), for every prior decoder state. -/
theorem claim_C5 (cfg : Config) (st : DecoderState) (pay : Payloads)
    (present : Nat) (reading : Bool)
    (h1 : 3 * pulsePeriod ≤ uSub present st.lastEdge)
    (h2 : 2 * bitPeriod < uSub present st.lastEdge) :
    handleOneWireInput cfg present reading st pay =
      ({ st with lastEdge := present, bitCount := 0, ignoreCount := 0,
                 tempData := 0 }, pay, none) := by
  unfold handleOneWireInput
  rw [if_neg (by omega), if_pos h2]

/-- Witness for C5 at a concrete input: state `⟨0, 2, 7, 9⟩`, edge at 1000 µs
(gap 1000). -/
theorem claim_C5_witness :
    3 * pulsePeriod ≤ uSub 1000 0 ∧ 2 * bitPeriod < uSub 1000 0 ∧
      handleOneWireInput ⟨2, 3, 5, true⟩ 1000 true ⟨0, 2, 7, 9⟩ ⟨1, 2, false⟩ =
        (⟨1000, 0, 0, 0⟩, ⟨1, 2, false⟩, none) :=
  ⟨by decide, by decide,
    claim_C5 ⟨2, 3, 5, true⟩ ⟨0, 2, 7, 9⟩ ⟨1, 2, false⟩ 1000 true
      (by decide) (by decide)⟩

/-- C6: an invocation whose edge gap is below `3 * pulsePeriod` leaves the
whole decoder state unchanged (including `lastEdge`), touches no payload
register and transmits nothing; consequently any sequence of such sub-threshold
edges is a no-op. -/
theorem claim_C6 (cfg : Config) (st : DecoderState) (pay : Payloads)
    (present : Nat) (reading : Bool) (es : List (Nat × Bool))
    (h : uSub present st.lastEdge < 3 * pulsePeriod)
    (hs : ∀ e ∈ es, uSub e.1 st.lastEdge < 3 * pulsePeriod) :
    handleOneWireInput cfg present reading st pay = (st, pay, none) ∧
      runDecoder cfg st pay es = (st, pay, []) :=
  ⟨glitch_step cfg st pay present reading h, glitch_run cfg st pay es hs⟩

/-- Witness for C6 at a concrete input: state with `lastEdge = 500`, a single
edge at 560 µs (gap 60 < 75) and a burst of three sub-threshold edges. -/
theorem claim_C6_witness :
    uSub 560 500 < 3 * pulsePeriod ∧
      handleOneWireInput ⟨2, 3, 5, true⟩ 560 true ⟨500, 2, 0, 3⟩ ⟨1, 2, false⟩ =
        (⟨500, 2, 0, 3⟩, ⟨1, 2, false⟩, none) ∧
      runDecoder ⟨2, 3, 5, true⟩ ⟨500, 2, 0, 3⟩ ⟨1, 2, false⟩
          [(510, true), (540, false), (560, true)] =
        (⟨500, 2, 0, 3⟩, ⟨1, 2, false⟩, []) := by
  refine ⟨by decide, ?_⟩
  exact claim_C6 ⟨2, 3, 5, true⟩ ⟨500, 2, 0, 3⟩ ⟨1, 2, false⟩ 560 true
    [(510, true), (540, false), (560, true)] (by decide) (by decide)

/-- C2: for a listener, on the accepted edge that brings the bit counter to
`addressWidth`: when the accumulated pattern equals `oneWireAddress` the
handler calls `sendData(oneWirePayloadOut, dataWidth)` and leaves
`ignoreCount` at zero; when it differs no transmission happens and
`ignoreCount` is set to `dataWidth`; in both cases `bitCount` and `tempData`
are reset to zero before the handler returns. -/
theorem claim_C2 (cfg : Config) (st : DecoderState) (pay : Payloads)
    (present : Nat) (reading : Bool)
    (hrole : cfg.oneWireListener = true)
    (hbits : st.bitCount = addressWidth - 1)
    (hig : st.ignoreCount = 0)
    (h1 : 3 * pulsePeriod ≤ uSub present st.lastEdge)
    (h2 : uSub present st.lastEdge ≤ 2 * bitPeriod) :
    ((2 * st.tempData + (if reading then 1 else 0)) % U32 = cfg.oneWireAddress →
        handleOneWireInput cfg present reading st pay =
          ({ st with lastEdge := present, bitCount := 0, ignoreCount := 0,
                     tempData := 0 }, pay,
            some (uint32OfInt pay.oneWirePayloadOut, dataWidth))) ∧
      ((2 * st.tempData + (if reading then 1 else 0)) % U32 ≠ cfg.oneWireAddress →
        handleOneWireInput cfg present reading st pay =
          ({ st with lastEdge := present, bitCount := 0,
                     ignoreCount := dataWidth, tempData := 0 }, pay, none)) := by
  have hb4 : (st.bitCount + 1) % 256 = addressWidth := by
    rw [hbits]; decide
  constructor <;> intro hmatch <;>
    · unfold handleOneWireInput
      rw [if_neg (by omega), if_neg (by omega)]
      simp [hig, hrole, hb4, hmatch]

/-- Witness for C2 at a concrete input: listener at address 5, three bits
`0b010` accumulated, fourth accepted edge reads 1, so the frame is `0b0101 =
5` and matches. -/
theorem claim_C2_witness :
    (2 * (2 : Nat) + 1) % U32 = 5 ∧
      handleOneWireInput ⟨2, 3, 5, true⟩ 1080 true ⟨1000, 3, 0, 2⟩ ⟨9, 0, false⟩ =
        (⟨1080, 0, 0, 0⟩, ⟨9, 0, false⟩, some (uint32OfInt 9, dataWidth)) := by
  refine ⟨by decide, ?_⟩
  exact (claim_C2 ⟨2, 3, 5, true⟩ ⟨1000, 3, 0, 2⟩ ⟨9, 0, false⟩ 1080 true
    rfl rfl rfl (by decide) (by decide)).1 (by decide)

/- ## Sign extension -/

theorem testBit_split (b q n j : Nat) (hq : q < 2 ^ n) :
    (b * 2 ^ n + q).testBit j =
      if j < n then q.testBit j else b.testBit (j - n) := by
  split
  case isTrue hj =>
    have key : (b * 2 ^ n + q) / 2 ^ j = q / 2 ^ j + b * 2 ^ (n - j) := by
      have hn : b * 2 ^ n = b * 2 ^ (n - j) * 2 ^ j := by
        rw [Nat.mul_assoc, ← pow_add]
        congr 2
        omega
      rw [hn, Nat.add_comm, Nat.add_mul_div_right _ _ (Nat.pos_pow_of_pos j (by omega))]
    have h2 : b * 2 ^ (n - j) = b * 2 ^ (n - j - 1) * 2 := by
      rw [Nat.mul_assoc, ← pow_succ]
      congr 2
      omega
    rw [Nat.testBit_to_div_mod, Nat.testBit_to_div_mod, key, h2,
      Nat.add_mul_mod_self_right]
  case isFalse hj =>
    have hdiv : (b * 2 ^ n + q) / 2 ^ j = b / 2 ^ (j - n) := by
      have hsplit2 : (2 : Nat) ^ j = 2 ^ n * 2 ^ (j - n) := by
        rw [← pow_add]
        congr 1
        omega
      rw [hsplit2, ← Nat.div_div_eq_div_mul, Nat.add_comm,
        Nat.add_mul_div_right _ _ (Nat.pos_pow_of_pos n (by omega)),
        Nat.div_eq_of_lt hq, Nat.zero_add]
    rw [Nat.testBit_to_div_mod, Nat.testBit_to_div_mod, hdiv]

theorem lor_high {q : Nat} (hq : q < 2 ^ 23) :
    (2 ^ 23 + q) ||| 4286578688 = 511 * 2 ^ 23 + q := by
  apply Nat.eq_of_testBit_eq
  intro j
  have h1 : (2 : Nat) ^ 23 + q = 1 * 2 ^ 23 + q := by ring_nf
  have h2 : (4286578688 : Nat) = 511 * 2 ^ 23 + 0 := by norm_num
  rw [Nat.testBit_or, h1, h2, testBit_split 1 q 23 j hq,
    testBit_split 511 0 23 j (by norm_num), testBit_split 511 q 23 j hq]
  split
  case isTrue hj => simp
  case isFalse hj =>
    rw [← Nat.testBit_or]
    have h3 : (1 : Nat) ||| 511 = 511 := by decide
    rw [h3]

theorem int32OfUInt32_low {n : Nat} (h : n < 2 ^ 31) :
    int32OfUInt32 n = (n : Int) := by
  have hmod : n % U32 = n := Nat.mod_eq_of_lt (by rw [U32_val]; omega)
  unfold int32OfUInt32
  rw [hmod, if_pos h]

theorem int32OfUInt32_high {n : Nat} (h1 : 2 ^ 31 ≤ n) (h2 : n < U32) :
    int32OfUInt32 n = (n : Int) - 2 ^ 32 := by
  unfold int32OfUInt32
  rw [Nat.mod_eq_of_lt h2, if_neg (by omega)]

theorem signExtendData_eq {p : Nat} (hp : p < 2 ^ dataWidth) :
    signExtendData p =
      if p.testBit (dataWidth - 1) then (p : Int) - 2 ^ dataWidth
      else (p : Int) := by
  have hpow : (2 : Nat) ^ dataWidth = 16777216 := by norm_num [dataWidth]
  have hp24 : p < 16777216 := by omega
  have hd1 : dataWidth - 1 = 23 := by norm_num [dataWidth]
  have hmask : ((1 <<< (dataWidth - 1)) % U32 : Nat) = 2 ^ 23 := by
    norm_num [hd1, U32, Nat.shiftLeft_eq]
  have hfill : ((4294967295 <<< (dataWidth - 1)) % U32 : Nat) = 4286578688 := by
    norm_num [hd1, U32, Nat.shiftLeft_eq]
  unfold signExtendData
  rw [hmask, hfill, hd1, Nat.and_two_pow]
  cases hb : p.testBit 23 with
  | false =>
    norm_num
    exact int32OfUInt32_low (by omega)
  | true =>
    have hge : 2 ^ 23 ≤ p := by
      by_contra hcon
      have hlow : p.testBit 23 = false := Nat.testBit_lt_two_pow (by omega)
      rw [hlow] at hb
      cases hb
    have hq : p - 2 ^ 23 < 2 ^ 23 := by omega
    have hsplit : p = 2 ^ 23 + (p - 2 ^ 23) := by omega
    have hor : p ||| 4286578688 = 511 * 2 ^ 23 + (p - 2 ^ 23) := by
      conv_lhs => rw [hsplit]
      exact lor_high hq
    norm_num
    have hpowI : ((2 : Int) ^ dataWidth) = 16777216 := by norm_num [dataWidth]
    rw [hor, int32OfUInt32_high (by omega) (by rw [U32_val]; omega), hpowI]
    omega

/-- C3: for a controller, on the accepted edge that brings the bit counter to
`dataWidth`, the handler stores into `oneWirePayloadIn` the sign extension of
the accumulated `dataWidth`-bit pattern `p` (if bit `dataWidth - 1` of `p` is
set the stored value is `p - 2^dataWidth`, otherwise `p` itself), sets
`oneWireMessageReceived`, and resets `bitCount`, `ignoreCount` and `tempData`
to zero. -/
theorem claim_C3 (cfg : Config) (st : DecoderState) (pay : Payloads)
    (present : Nat) (reading : Bool)
    (hrole : cfg.oneWireListener = false)
    (hbits : st.bitCount = dataWidth - 1)
    (hig : st.ignoreCount = 0)
    (htemp : st.tempData < 2 ^ (dataWidth - 1))
    (h1 : 3 * pulsePeriod ≤ uSub present st.lastEdge)
    (h2 : uSub present st.lastEdge ≤ 2 * bitPeriod) :
    handleOneWireInput cfg present reading st pay =
      ({ st with lastEdge := present, bitCount := 0, ignoreCount := 0,
                 tempData := 0 },
       { pay with oneWireMessageReceived := true,
                  oneWirePayloadIn :=
                    if (2 * st.tempData + (if reading then 1 else 0)).testBit
                        (dataWidth - 1) then
                      ((2 * st.tempData + (if reading then 1 else 0) : Nat) : Int)
                        - 2 ^ dataWidth
                    else
                      ((2 * st.tempData + (if reading then 1 else 0) : Nat) : Int) },
       none) := by
  have h23 : (2 : Nat) ^ (dataWidth - 1) = 8388608 := by norm_num [dataWidth]
  have h24 : (2 : Nat) ^ dataWidth = 16777216 := by norm_num [dataWidth]
  have hbound : 2 * st.tempData + (if reading then 1 else 0) < 2 ^ dataWidth := by
    cases reading <;> simp <;> omega
  have hptmp : (2 * st.tempData + (if reading then 1 else 0)) % U32 =
      2 * st.tempData + (if reading then 1 else 0) := by
    apply Nat.mod_eq_of_lt
    rw [U32_val]
    omega
  have hbc : (st.bitCount + 1) % 256 = dataWidth := by rw [hbits]; decide
  simp only [handleOneWireInput]
  rw [if_neg (by omega), if_neg (by omega)]
  simp only [hig, hrole, hbc, hptmp, signExtendData_eq hbound]
  simp

/-- Witness for C3 at a concrete input: controller with 23 accumulated bits
`0x400001`, 24th accepted edge reads 0, so the pattern is `0x800002` whose
top bit is set; the stored value is `0x800002 - 2^24 = -8388606`. -/
theorem claim_C3_witness :
    handleOneWireInput ⟨2, 3, 5, false⟩ 2000 false ⟨1920, 23, 0, 4194305⟩
        ⟨9, 0, false⟩ =
      (⟨2000, 0, 0, 0⟩, ⟨9, (8388610 : Int) - 2 ^ dataWidth, true⟩, none) := by
  have h := claim_C3 ⟨2, 3, 5, false⟩ ⟨1920, 23, 0, 4194305⟩ ⟨9, 0, false⟩
    2000 false rfl rfl rfl (by norm_num [dataWidth]) (by decide) (by decide)
  rw [h]
  have ht : Nat.testBit 8388610 23 = true := by decide
  norm_num [dataWidth, ht]

/- ## Collision suppression -/

theorem suppress_step (cfg : Config) (st : DecoderState) (pay : Payloads)
    (t : Nat) (r : Bool)
    (hig : st.ignoreCount ≠ 0)
    (h1 : 3 * pulsePeriod ≤ uSub t st.lastEdge)
    (h2 : uSub t st.lastEdge ≤ 2 * bitPeriod) :
    handleOneWireInput cfg t r st pay =
      ({ st with lastEdge := t, ignoreCount := st.ignoreCount - 1 }, pay, none) := by
  simp only [handleOneWireInput]
  rw [if_neg (by omega), if_neg (by omega)]
  simp [hig]

theorem spaced_head {last t : Nat} {r : Bool} {rest : List (Nat × Bool)}
    (h : spaced last ((t, r) :: rest) = true) :
    last + 3 * pulsePeriod ≤ t ∧ t ≤ last + 2 * bitPeriod ∧ t < U32 ∧
      spaced t rest = true := by
  simp only [spaced, Bool.and_eq_true, decide_eq_true_eq] at h
  exact ⟨h.1.1.1, h.1.1.2, h.1.2, h.2⟩

theorem suppress_run (cfg : Config) :
    ∀ (es : List (Nat × Bool)) (st : DecoderState) (pay : Payloads),
      st.bitCount = 0 → st.tempData = 0 → st.lastEdge < U32 →
      spaced st.lastEdge es = true → es.length ≤ st.ignoreCount →
      runDecoder cfg st pay es =
        ({ st with lastEdge := lastTime st.lastEdge es,
                   ignoreCount := st.ignoreCount - es.length }, pay, []) := by
  intro es
  induction es with
  | nil =>
    intro st pay _ _ _ _ _
    cases st
    simp [runDecoder, lastTime]
  | cons e rest ih =>
    intro st pay hb htm hL hsp hlen
    obtain ⟨e1, e2⟩ := e
    obtain ⟨hs1, hs2, hs3, hs4⟩ := spaced_head hsp
    have hsub : uSub e1 st.lastEdge = e1 - st.lastEdge :=
      uSub_eq_sub (by omega) (by omega) hL
    have hstep := suppress_step cfg st pay e1 e2
      (by simp at hlen; omega) (by omega) (by omega)
    simp only [runDecoder, hstep]
    rw [ih { st with lastEdge := e1, ignoreCount := st.ignoreCount - 1 } pay
      hb htm hs3 hs4 (by simp at hlen ⊢; omega)]
    have harith : st.ignoreCount - 1 - rest.length =
        st.ignoreCount - (rest.length + 1) := by omega
    simp [lastTime, harith]

theorem fresh_accept_listener (cfg : Config) (st : DecoderState) (pay : Payloads)
    (t : Nat) (r : Bool)
    (hrole : cfg.oneWireListener = true)
    (hbits : st.bitCount = 0) (htemp : st.tempData = 0) (hig : st.ignoreCount = 0)
    (h1 : 3 * pulsePeriod ≤ uSub t st.lastEdge)
    (h2 : uSub t st.lastEdge ≤ 2 * bitPeriod) :
    handleOneWireInput cfg t r st pay =
      ({ st with lastEdge := t, bitCount := 1,
                 tempData := if r then 1 else 0 }, pay, none) := by
  simp only [handleOneWireInput]
  rw [if_neg (by omega), if_neg (by omega)]
  simp [hig, hrole, hbits, htemp, addressWidth]
  cases r <;> simp [U32_val]

theorem spaced_lastTime_lt {l : Nat} (hl : l < U32) :
    ∀ es : List (Nat × Bool), spaced l es = true → lastTime l es < U32 := by
  intro es
  induction es generalizing l with
  | nil => intro _; simpa [lastTime]
  | cons e rest ih =>
    intro hsp
    obtain ⟨e1, e2⟩ := e
    obtain ⟨_, _, h3, h4⟩ := spaced_head hsp
    exact ih h3 h4

theorem runDecoder_append (cfg : Config) (xs ys : List (Nat × Bool)) :
    ∀ (st : DecoderState) (pay : Payloads),
      runDecoder cfg st pay (xs ++ ys) =
        ((runDecoder cfg (runDecoder cfg st pay xs).1
            (runDecoder cfg st pay xs).2.1 ys).1,
         (runDecoder cfg (runDecoder cfg st pay xs).1
            (runDecoder cfg st pay xs).2.1 ys).2.1,
         (runDecoder cfg st pay xs).2.2 ++
           (runDecoder cfg (runDecoder cfg st pay xs).1
              (runDecoder cfg st pay xs).2.1 ys).2.2) := by
  induction xs with
  | nil => intro st pay; simp [runDecoder]
  | cons e rest ih =>
    intro st pay
    simp only [List.cons_append, runDecoder, List.append_eq]
    rw [ih]
    simp [List.append_assoc]

/-- C7: after a listener's address mismatch has set `ignoreCount` to
`dataWidth`, the next `dataWidth` accepted edges (gaps inside
`[3 * pulsePeriod, 2 * bitPeriod]`) are each discarded by only decrementing
`ignoreCount` — `bitCount` and `tempData` stay zero and nothing is sent — and
once `ignoreCount` has reached zero the next accepted edge starts a new
address frame from `bitCount = 0`, `tempData = 0` (accumulating its first
bit). -/
theorem claim_C7 (cfg : Config) (st : DecoderState) (pay : Payloads)
    (es : List (Nat × Bool)) (t : Nat) (r : Bool)
    (hrole : cfg.oneWireListener = true)
    (hbits : st.bitCount = 0) (htemp : st.tempData = 0)
    (hig : st.ignoreCount = dataWidth) (hL : st.lastEdge < U32)
    (hsp : spaced st.lastEdge es = true) :
    (es.length ≤ dataWidth →
      runDecoder cfg st pay es =
        ({ st with lastEdge := lastTime st.lastEdge es,
                   ignoreCount := dataWidth - es.length }, pay, [])) ∧
    (es.length = dataWidth →
      lastTime st.lastEdge es + 3 * pulsePeriod ≤ t →
      t ≤ lastTime st.lastEdge es + 2 * bitPeriod → t < U32 →
      runDecoder cfg st pay (es ++ [(t, r)]) =
        ({ st with lastEdge := t, bitCount := 1, ignoreCount := 0,
                   tempData := if r then 1 else 0 }, pay, [])) := by
  constructor
  · intro hlen
    rw [suppress_run cfg es st pay hbits htemp hL hsp (by omega)]
    rw [hig]
  · intro hlen ht1 ht2 ht3
    have hfull := suppress_run cfg es st pay hbits htemp hL hsp (by omega)
    have hlast := spaced_lastTime_lt hL es hsp
    have hsub : uSub t (lastTime st.lastEdge es) = t - lastTime st.lastEdge es :=
      uSub_eq_sub (by omega) (by omega) hlast
    rw [runDecoder_append, hfull]
    have haccept := fresh_accept_listener cfg
      { st with lastEdge := lastTime st.lastEdge es,
                ignoreCount := st.ignoreCount - es.length } pay t r
      hrole hbits htemp (show st.ignoreCount - es.length = 0 by omega)
      (show 3 * pulsePeriod ≤ uSub t (lastTime st.lastEdge es) by omega)
      (show uSub t (lastTime st.lastEdge es) ≤ 2 * bitPeriod by omega)
    simp only [runDecoder, haccept]
    have hzero : st.ignoreCount - es.length = 0 := by omega
    simp [hzero]

/-- Witness for C7 at a concrete input: 24 suppressed edges spaced 80 µs
apart after a mismatch at time 1000, then a 25th accepted edge at 3080 µs. -/
theorem claim_C7_witness :
    spaced 1000 ((List.range 24).map (fun k => (1080 + 80 * k, false))) = true ∧
      runDecoder ⟨2, 3, 5, true⟩ ⟨1000, 0, 24, 0⟩ ⟨9, 0, false⟩
          (((List.range 24).map (fun k => (1080 + 80 * k, false))) ++
            [(3080, true)]) =
        (⟨3080, 1, 0, 1⟩, ⟨9, 0, false⟩, []) := by
  refine ⟨by decide, ?_⟩
  have h := (claim_C7 ⟨2, 3, 5, true⟩ ⟨1000, 0, 24, 0⟩ ⟨9, 0, false⟩
    ((List.range 24).map (fun k => (1080 + 80 * k, false))) 3080 true
    rfl rfl rfl rfl (by decide) (by decide)).2 (by decide)
    (by decide) (by decide) (by decide)
  rw [h]
  norm_num

/- ## Decoder invariant -/

theorem decoderInv_step (cfg : Config) (st : DecoderState) (pay : Payloads)
    (present : Nat) (reading : Bool) (h : DecoderInv cfg st) :
    DecoderInv cfg (handleOneWireInput cfg present reading st pay).1 := by
  obtain ⟨hlt, hz⟩ := h
  have hd : dataWidth = 24 := rfl
  have ha : addressWidth = 4 := rfl
  simp only [handleOneWireInput]
  by_cases h1 : uSub present st.lastEdge < 3 * pulsePeriod
  · rw [if_pos h1]
    exact ⟨hlt, hz⟩
  rw [if_neg h1]
  by_cases h2 : 2 * bitPeriod < uSub present st.lastEdge
  · rw [if_pos h2]
    refine ⟨?_, fun _ => rfl⟩
    show 0 < _
    cases hc : cfg.oneWireListener <;> simp [hc, addressWidth, dataWidth]
  rw [if_neg h2]
  by_cases h3 : st.ignoreCount ≠ 0
  · rw [if_pos h3]
    exact ⟨hlt, hz⟩
  rw [if_neg h3]
  cases hc : cfg.oneWireListener with
  | false =>
    rw [if_neg (by simp [hc])]
    have hlt2 : st.bitCount < dataWidth := by
      rw [hc] at hlt
      simpa using hlt
    have hb1 : (st.bitCount + 1) % 256 = st.bitCount + 1 := by omega
    by_cases h4 : (st.bitCount + 1) % 256 = dataWidth
    · rw [if_pos h4]
      refine ⟨?_, fun _ => rfl⟩
      show 0 < _
      simp [hc, dataWidth]
    · rw [if_neg h4]
      refine ⟨?_, fun hb0 => ?_⟩
      · show (st.bitCount + 1) % 256 < _
        simp only [hc, Bool.false_eq_true, if_false]
        omega
      · exfalso
        have hb2 : (st.bitCount + 1) % 256 = 0 := hb0
        omega
  | true =>
    rw [if_pos (by simp [hc])]
    have hlt2 : st.bitCount < addressWidth := by
      rw [hc] at hlt
      simpa using hlt
    have hb1 : (st.bitCount + 1) % 256 = st.bitCount + 1 := by omega
    by_cases h4 : (st.bitCount + 1) % 256 = addressWidth
    · rw [if_pos h4]
      by_cases h5 : (2 * st.tempData + (if reading then 1 else 0)) % U32 =
          cfg.oneWireAddress
      · rw [if_pos h5]
        refine ⟨?_, fun _ => rfl⟩
        show 0 < _
        simp [hc, addressWidth]
      · rw [if_neg h5]
        refine ⟨?_, fun _ => rfl⟩
        show 0 < _
        simp [hc, addressWidth]
    · rw [if_neg h4]
      refine ⟨?_, fun hb0 => ?_⟩
      · show (st.bitCount + 1) % 256 < _
        simp only [hc, if_true]
        omega
      · exfalso
        have hb2 : (st.bitCount + 1) % 256 = 0 := hb0
        omega

theorem decoderInv_run (cfg : Config) :
    ∀ (es : List (Nat × Bool)) (st : DecoderState) (pay : Payloads),
      DecoderInv cfg st → DecoderInv cfg (runDecoder cfg st pay es).1 := by
  intro es
  induction es with
  | nil => intro st pay h; simpa [runDecoder]
  | cons e rest ih =>
    intro st pay h
    simp only [runDecoder]
    exact ih _ _ (decoderInv_step cfg st pay e.1 e.2 h)

/-- C8: for every edge sequence processed under a fixed role from the
power-on decoder state, `bitCount` stays within
`[0, max addressWidth dataWidth]` after every invocation, and whenever
`bitCount` is zero the shift register `tempData` is zero too (the two are
reset together). -/
theorem claim_C8 (cfg : Config) (pay : Payloads) (es : List (Nat × Bool)) :
    (runDecoder cfg initialState pay es).1.bitCount ≤ max addressWidth dataWidth ∧
      ((runDecoder cfg initialState pay es).1.bitCount = 0 →
        (runDecoder cfg initialState pay es).1.tempData = 0) := by
  have h0 : DecoderInv cfg initialState := by
    refine ⟨?_, fun _ => rfl⟩
    cases hc : cfg.oneWireListener <;> simp [hc, initialState, addressWidth, dataWidth]
  obtain ⟨hlt, hz⟩ := decoderInv_run cfg es initialState pay h0
  refine ⟨?_, hz⟩
  have ha : addressWidth = 4 := rfl
  have hd : dataWidth = 24 := rfl
  revert hlt
  cases hc : cfg.oneWireListener <;> simp [hc, ha, hd] <;> omega

/- ## Controller request path -/

theorem waitLoopGo_le (flag : Nat → Bool) (m : Nat) :
    ∀ (fuel k : Nat), k ≤ 10 → waitLoopGo flag m fuel k ≤ 10 := by
  intro fuel
  induction fuel with
  | zero => intro k hk; simpa [waitLoopGo]
  | succ n ih =>
    intro k hk
    by_cases hk10 : k = 10
    · subst hk10
      have hstop : millisAt m 10 = timeoutMark m := rfl
      simp [waitLoopGo, hstop]
    · simp only [waitLoopGo]
      split
      · exact ih (k + 1) (by omega)
      · exact hk

theorem waitExit_le (flag : Nat → Bool) (m : Nat) : waitExit flag m ≤ 10 :=
  waitLoopGo_le flag m 11 0 (by omega)

/-- C4: `requestOneWire` has exactly two outcomes: either the
`oneWireMessageReceived` flag is observed (the wait loop exits within the
10-tick window) and the call delivers `oneWirePayloadIn`, or the flag is not
observed at loop exit and the call delivers the default `0`; in both cases
`oneWireMessageReceived` is false on return. -/
theorem claim_C4 (cfg : Config) (targetAdd m : Nat) (env : ReqEnv) :
    waitExit env.flag m ≤ 10 ∧
      (requestOneWire cfg targetAdd m env).messageReceivedAfter = false ∧
      ((env.flag (waitExit env.flag m) = true ∧
          (requestOneWire cfg targetAdd m env).destination = env.inVal) ∨
        (env.flag (waitExit env.flag m) = false ∧
          (requestOneWire cfg targetAdd m env).destination = 0)) := by
  refine ⟨waitExit_le env.flag m, rfl, ?_⟩
  cases hf : env.flag (waitExit env.flag m) with
  | true => exact Or.inl ⟨rfl, by simp [requestOneWire, hf]⟩
  | false => exact Or.inr ⟨rfl, by simp [requestOneWire, hf]⟩

/-- C9: when `millis()` returns `m > 2^32 - 11` at the start of the wait, the
deadline `millis() + 10` wraps modulo `2^32`, the loop condition
`millis() < timeoutMark` is already false at the first poll, the loop runs
zero iterations, and (with no message pending) the call delivers `0`
immediately instead of waiting 10 ms. -/
theorem claim_C9 (cfg : Config) (targetAdd : Nat) (env : ReqEnv) (m : Nat)
    (h1 : U32 - 11 < m) (h2 : m < U32) :
    timeoutMark m = m + 10 - U32 ∧
      ¬ millisAt m 0 < timeoutMark m ∧
      waitExit env.flag m = 0 ∧
      (env.flag 0 = false → (requestOneWire cfg targetAdd m env).destination = 0) := by
  have hU : U32 = 4294967296 := U32_val
  have hmark : timeoutMark m = m + 10 - U32 := by
    unfold timeoutMark
    rw [Nat.mod_eq_sub_mod (by omega), Nat.mod_eq_of_lt (by omega)]
  have hm0 : millisAt m 0 = m := by
    unfold millisAt
    rw [Nat.add_zero, Nat.mod_eq_of_lt h2]
  have hnlt : ¬ millisAt m 0 < timeoutMark m := by
    rw [hmark, hm0]
    omega
  have hexit : waitExit env.flag m = 0 := by
    unfold waitExit waitLoopGo
    simp [hnlt]
  refine ⟨hmark, hnlt, hexit, fun hf => ?_⟩
  simp [requestOneWire, hexit, hf]

/-- Witness for C9 at the concrete clock value `m = 2^32 - 1`. -/
theorem claim_C9_witness :
    U32 - 11 < 4294967295 ∧ (4294967295 : Nat) < U32 ∧
      timeoutMark 4294967295 = 4294967295 + 10 - U32 ∧
      waitExit (fun _ => false) 4294967295 = 0 ∧
      (requestOneWire ⟨2, 3, 5, false⟩ 5 4294967295
        ⟨fun _ => false, 7⟩).destination = 0 := by
  have h := claim_C9 ⟨2, 3, 5, false⟩ 5 ⟨fun _ => false, 7⟩ 4294967295
    (by decide) (by decide)
  exact ⟨by decide, by decide, h.1, h.2.2.1, h.2.2.2 rfl⟩

/-- C10: every call of `requestOneWire`, on the response path and on the
timeout path alike, performs `digitalWrite(13, HIGH)` as its final pin write
before delivering the result — a side effect on the fixed pin 13, which is
neither the configured receive pin nor the configured transmit pin. -/
theorem claim_C10 (cfg : Config) (targetAdd m : Nat) (env : ReqEnv)
    (hrx : cfg.pinRX ≠ 13) (htx : cfg.pinTX ≠ 13) :
    (requestOneWire cfg targetAdd m env).pinWrites.getLast? = some (13, true) ∧
      (13, true) ∈ (requestOneWire cfg targetAdd m env).pinWrites ∧
      13 ≠ cfg.pinRX ∧ 13 ≠ cfg.pinTX := by
  refine ⟨?_, ?_, fun hc => hrx hc.symm, fun hc => htx hc.symm⟩
  · show (((cfg.pinTX, true) :: _) ++ [((13 : Nat), true)]).getLast? = _
    rw [List.getLast?_concat]
  · show (13, true) ∈ ((cfg.pinTX, true) :: _) ++ [((13 : Nat), true)]
    simp

/-- Witness for C10 at a concrete configuration (RX pin 2, TX pin 3). -/
theorem claim_C10_witness :
    (2 : Nat) ≠ 13 ∧ (3 : Nat) ≠ 13 ∧
      (requestOneWire ⟨2, 3, 5, false⟩ 5 1000
          ⟨fun _ => false, 7⟩).pinWrites.getLast? = some (13, true) := by
  have h := claim_C10 ⟨2, 3, 5, false⟩ 5 1000 ⟨fun _ => false, 7⟩
    (by decide) (by decide)
  exact ⟨by decide, by decide, h.1⟩

/- ## Round trip: sendData waveform into the decoder -/

theorem runDecoder_cons_none (cfg : Config) (st : DecoderState) (pay : Payloads)
    (e : Nat × Bool) (rest : List (Nat × Bool)) (st2 : DecoderState)
    (pay2 : Payloads)
    (hstep : handleOneWireInput cfg e.1 e.2 st pay = (st2, pay2, none)) :
    runDecoder cfg st pay (e :: rest) = runDecoder cfg st2 pay2 rest := by
  rcases hres : runDecoder cfg st2 pay2 rest with ⟨s2, p2, l2⟩
  simp [runDecoder, hstep, hres]

theorem sendDataTx_bit (v i : Nat) (hi : i < 32) :
    (((1 <<< i) % U32) &&& v != 0) = v.testBit i := by
  have hm : ((1 <<< i) % U32 : Nat) = 2 ^ i := by
    rw [Nat.shiftLeft_eq, Nat.one_mul]
    exact Nat.mod_eq_of_lt (Nat.pow_lt_pow_right (by omega) hi)
  rw [hm, Nat.two_pow_and]
  cases hb : v.testBit i <;> simp [hb]

theorem busWrites_zero (v t : Nat) : busWrites v 0 t = [(t, true)] := by
  simp [busWrites, sendDataTx]

theorem busWrites_succ (v i t : Nat) :
    busWrites v (i + 1) t =
      (t, !(((1 <<< i) % U32) &&& v != 0)) ::
        (t + 55, ((1 <<< i) % U32) &&& v != 0) :: busWrites v i (t + 80) := by
  simp [busWrites, sendDataTx, bitPeriod, pulsePeriod]

theorem slot_run (cfg : Config) (st : DecoderState) (pay : Payloads)
    (t : Nat) (b prev : Bool) (rest : List (Nat × Bool))
    (hL : st.lastEdge = t - 25) (ht : 25 ≤ t) (htU : t < U32) :
    runDecoder cfg st pay (edgesFrom prev ((t, !b) :: (t + 55, b) :: rest)) =
      runDecoder cfg st pay ((t + 55, b) :: edgesFrom b rest) := by
  have hsub : uSub t st.lastEdge = 25 := by
    rw [hL, uSub_eq_sub (by omega) (by omega) (by omega)]
    omega
  have hglitch : ∀ rr : Bool, handleOneWireInput cfg t rr st pay = (st, pay, none) :=
    fun rr => glitch_step cfg st pay t rr (by rw [hsub]; norm_num [pulsePeriod])
  cases b <;> cases prev <;> simp [edgesFrom, runDecoder, hglitch]

theorem accept_step_controller (cfg : Config) (st : DecoderState)
    (pay : Payloads) (t : Nat) (r : Bool)
    (hrole : cfg.oneWireListener = false)
    (hig : st.ignoreCount = 0)
    (hbc : st.bitCount + 1 < dataWidth)
    (htd : 2 * st.tempData + 1 < U32)
    (h1 : 3 * pulsePeriod ≤ uSub t st.lastEdge)
    (h2 : uSub t st.lastEdge ≤ 2 * bitPeriod) :
    handleOneWireInput cfg t r st pay =
      ({ st with lastEdge := t, bitCount := st.bitCount + 1,
                 tempData := 2 * st.tempData + (if r then 1 else 0) },
        pay, none) := by
  have hd : dataWidth = 24 := rfl
  have hmodb : (st.bitCount + 1) % 256 = st.bitCount + 1 :=
    Nat.mod_eq_of_lt (by omega)
  have hmodt : (2 * st.tempData + (if r then 1 else 0)) % U32 =
      2 * st.tempData + (if r then 1 else 0) :=
    Nat.mod_eq_of_lt (by cases r <;> simp <;> omega)
  have hne : ¬ st.bitCount + 1 = dataWidth := by omega
  simp only [handleOneWireInput]
  rw [if_neg (by omega), if_neg (by omega)]
  simp [hig, hrole, hmodb, hmodt, hne]

theorem accept_step_controller_last (cfg : Config) (st : DecoderState)
    (pay : Payloads) (t : Nat) (r : Bool)
    (hrole : cfg.oneWireListener = false)
    (hig : st.ignoreCount = 0)
    (hbc : st.bitCount + 1 = dataWidth)
    (htd : 2 * st.tempData + 1 < U32)
    (h1 : 3 * pulsePeriod ≤ uSub t st.lastEdge)
    (h2 : uSub t st.lastEdge ≤ 2 * bitPeriod) :
    handleOneWireInput cfg t r st pay =
      (⟨t, 0, 0, 0⟩,
       { pay with oneWireMessageReceived := true,
                  oneWirePayloadIn :=
                    signExtendData (2 * st.tempData + (if r then 1 else 0)) },
        none) := by
  have hd : dataWidth = 24 := rfl
  have hmodb : (st.bitCount + 1) % 256 = dataWidth := by
    rw [Nat.mod_eq_of_lt (by omega)]
    exact hbc
  have hmodt : (2 * st.tempData + (if r then 1 else 0)) % U32 =
      2 * st.tempData + (if r then 1 else 0) :=
    Nat.mod_eq_of_lt (by cases r <;> simp <;> omega)
  simp only [handleOneWireInput]
  rw [if_neg (by omega), if_neg (by omega)]
  simp [hig, hrole, hmodb, hmodt]

theorem testBit_step (v i : Nat) :
    (if v.testBit i then 1 else 0) * 2 ^ i + v % 2 ^ i = v % 2 ^ (i + 1) := by
  rw [pow_succ, Nat.mod_mul]
  have hb : (if v.testBit i then 1 else 0) = v / 2 ^ i % 2 := by
    rw [Nat.testBit_to_div_mod]
    rcases Nat.mod_two_eq_zero_or_one (v / 2 ^ i) with h0 | h0 <;> simp [h0]
  rw [hb]
  ring

theorem run_noDispatch (cfg : Config) (v : Nat)
    (hrole : cfg.oneWireListener = false) :
    ∀ (i c a t : Nat) (prev : Bool) (pay : Payloads),
      c + i < dataWidth → a < 2 ^ c → 25 ≤ t → t + 80 * i < U32 →
      runDecoder cfg ⟨t - 25, c, 0, a⟩ pay (edgesFrom prev (busWrites v i t)) =
        (⟨t + 80 * i - 25, c + i, 0, a * 2 ^ i + v % 2 ^ i⟩, pay, []) := by
  have hd : dataWidth = 24 := rfl
  intro i
  induction i with
  | zero =>
    intro c a t prev pay hci ha ht htU
    rw [busWrites_zero]
    have hglitch := glitch_step cfg ⟨t - 25, c, 0, a⟩ pay t true
      (by
        have hsub : uSub t (t - 25) = 25 := by
          rw [uSub_eq_sub (by omega) (by omega) (by omega)]
          omega
        show uSub t (DecoderState.mk (t - 25) c 0 a).lastEdge < 3 * pulsePeriod
        rw [show (DecoderState.mk (t - 25) c 0 a).lastEdge = t - 25 from rfl, hsub]
        norm_num [pulsePeriod])
    cases prev <;> simp [edgesFrom, runDecoder, hglitch, Nat.mod_one]
  | succ i ih =>
    intro c a t prev pay hci ha ht htU
    have h23 : (2 : Nat) ^ 23 = 8388608 := by norm_num
    have hle : (2 : Nat) ^ c ≤ 2 ^ 23 := Nat.pow_le_pow_right (by omega) (by omega)
    rw [busWrites_succ, sendDataTx_bit v i (by omega)]
    rw [slot_run cfg ⟨t - 25, c, 0, a⟩ pay t (v.testBit i) prev _ rfl ht (by omega)]
    have hsub : uSub (t + 55) (t - 25) = 80 := by
      rw [uSub_eq_sub (by omega) (by omega) (by omega)]
      omega
    have hstep := accept_step_controller cfg ⟨t - 25, c, 0, a⟩ pay (t + 55)
      (v.testBit i) hrole rfl (show c + 1 < dataWidth by omega)
      (show 2 * a + 1 < U32 by rw [U32_val]; omega)
      (by rw [show uSub (t + 55) (DecoderState.mk (t - 25) c 0 a).lastEdge =
          uSub (t + 55) (t - 25) from rfl, hsub]; norm_num [pulsePeriod])
      (by rw [show uSub (t + 55) (DecoderState.mk (t - 25) c 0 a).lastEdge =
          uSub (t + 55) (t - 25) from rfl, hsub]; norm_num [bitPeriod])
    rw [runDecoder_cons_none cfg ⟨t - 25, c, 0, a⟩ pay (t + 55, v.testBit i) _ _ _ hstep]
    have hIH := ih (c + 1) (2 * a + if v.testBit i then 1 else 0) (t + 80)
      (v.testBit i) pay (by omega) (by cases hv : v.testBit i <;> simp <;> omega)
      (by omega) (by omega)
    rw [show t + 80 - 25 = t + 55 from by omega] at hIH
    rw [hIH]
    have htmp : (2 * a + (if v.testBit i then 1 else 0)) * 2 ^ i + v % 2 ^ i =
        a * 2 ^ (i + 1) + v % 2 ^ (i + 1) := by
      rw [← testBit_step v i]
      ring
    rw [htmp, show t + 80 + 80 * i - 25 = t + 80 * (i + 1) - 25 from by omega,
      show c + 1 + i = c + (i + 1) from by omega]

theorem run_dispatch (cfg : Config) (v : Nat)
    (hrole : cfg.oneWireListener = false) :
    ∀ (i c a t : Nat) (prev : Bool) (pay : Payloads),
      1 ≤ i → c + i = dataWidth → a < 2 ^ c → 25 ≤ t → t + 80 * i < U32 →
      runDecoder cfg ⟨t - 25, c, 0, a⟩ pay (edgesFrom prev (busWrites v i t)) =
        (⟨t + 80 * i - 25, 0, 0, 0⟩,
         { pay with oneWireMessageReceived := true,
                    oneWirePayloadIn :=
                      signExtendData (a * 2 ^ i + v % 2 ^ i) }, []) := by
  have hd : dataWidth = 24 := rfl
  intro i
  induction i with
  | zero =>
    intro c a t prev pay hpos _ _ _ _
    exact absurd hpos (by omega)
  | succ i ih =>
    intro c a t prev pay hpos hci ha ht htU
    have h23 : (2 : Nat) ^ 23 = 8388608 := by norm_num
    have hle : (2 : Nat) ^ c ≤ 2 ^ 23 := Nat.pow_le_pow_right (by omega) (by omega)
    rw [busWrites_succ, sendDataTx_bit v i (by omega)]
    rw [slot_run cfg ⟨t - 25, c, 0, a⟩ pay t (v.testBit i) prev _ rfl ht (by omega)]
    have hsub : uSub (t + 55) (t - 25) = 80 := by
      rw [uSub_eq_sub (by omega) (by omega) (by omega)]
      omega
    by_cases hi0 : i = 0
    · subst hi0
      have hstep := accept_step_controller_last cfg ⟨t - 25, c, 0, a⟩ pay (t + 55)
        (v.testBit 0) hrole rfl (show c + 1 = dataWidth by omega)
        (show 2 * a + 1 < U32 by rw [U32_val]; omega)
        (by rw [show uSub (t + 55) (DecoderState.mk (t - 25) c 0 a).lastEdge =
            uSub (t + 55) (t - 25) from rfl, hsub]; norm_num [pulsePeriod])
        (by rw [show uSub (t + 55) (DecoderState.mk (t - 25) c 0 a).lastEdge =
            uSub (t + 55) (t - 25) from rfl, hsub]; norm_num [bitPeriod])
      have hglitch : ∀ (pp : Payloads) (rr : Bool),
          handleOneWireInput cfg (t + 80) rr ⟨t + 55, 0, 0, 0⟩ pp =
            (⟨t + 55, 0, 0, 0⟩, pp, none) := by
        intro pp rr
        apply glitch_step
        have hsub2 : uSub (t + 80) (t + 55) = 25 := by
          rw [uSub_eq_sub (by omega) (by omega) (by omega)]
          omega
        show uSub (t + 80) (t + 55) < 3 * pulsePeriod
        rw [hsub2]
        norm_num [pulsePeriod]
      rw [runDecoder_cons_none cfg ⟨t - 25, c, 0, a⟩ pay (t + 55, v.testBit 0)
        _ _ _ hstep, busWrites_zero]
      have h01 := Nat.testBit_to_div_mod (x := v) (i := 0)
      rw [pow_zero, Nat.div_one] at h01
      cases hv0 : v.testBit 0 with
      | false =>
        rw [hv0] at h01
        have hv2 : v % 2 = 0 := by
          rcases Nat.mod_two_eq_zero_or_one v with h | h
          · exact h
          · rw [h] at h01
            simp at h01
        simp [edgesFrom, runDecoder, hglitch, hv2, Nat.mul_comm]
      | true =>
        rw [hv0] at h01
        have hv2 : v % 2 = 1 := by
          rcases Nat.mod_two_eq_zero_or_one v with h | h
          · rw [h] at h01
            simp at h01
          · exact h
        simp [edgesFrom, runDecoder, hglitch, hv2, Nat.mul_comm]
    · have hstep := accept_step_controller cfg ⟨t - 25, c, 0, a⟩ pay (t + 55)
        (v.testBit i) hrole rfl (show c + 1 < dataWidth by omega)
        (show 2 * a + 1 < U32 by rw [U32_val]; omega)
        (by rw [show uSub (t + 55) (DecoderState.mk (t - 25) c 0 a).lastEdge =
            uSub (t + 55) (t - 25) from rfl, hsub]; norm_num [pulsePeriod])
        (by rw [show uSub (t + 55) (DecoderState.mk (t - 25) c 0 a).lastEdge =
            uSub (t + 55) (t - 25) from rfl, hsub]; norm_num [bitPeriod])
      rw [runDecoder_cons_none cfg ⟨t - 25, c, 0, a⟩ pay (t + 55, v.testBit i)
        _ _ _ hstep]
      have hIH := ih (c + 1) (2 * a + if v.testBit i then 1 else 0) (t + 80)
        (v.testBit i) pay (by omega) (by omega)
        (by cases hv : v.testBit i <;> simp <;> omega)
        (by omega) (by omega)
      rw [show t + 80 - 25 = t + 55 from by omega] at hIH
      rw [hIH]
      have htmp : (2 * a + (if v.testBit i then 1 else 0)) * 2 ^ i + v % 2 ^ i =
          a * 2 ^ (i + 1) + v % 2 ^ (i + 1) := by
        rw [← testBit_step v i]
        ring
      rw [htmp, show t + 80 + 80 * i - 25 = t + 80 * (i + 1) - 25 from by omega]

/-- C1 as stated is false: from the decoder's reset state (counters and shift
register zero, `lastEdge` the power-on value 0), feeding the edge sequence of
`sendData(12, 4)` transmitted from 1000 µs does not accumulate `12` after 4
accepted edges — the transmission's first edge is consumed as the resync
reference (its gap exceeds `2 * bitPeriod`), only 3 further edges are ever
accepted, and the shift register ends at `0`. -/
theorem claim_C1_counterexample :
    (runDecoder ⟨2, 3, 5, false⟩ initialState ⟨0, 0, false⟩
        (sendDataEdges 12 4 1000)).1.bitCount = 3 ∧
      (runDecoder ⟨2, 3, 5, false⟩ initialState ⟨0, 0, false⟩
        (sendDataEdges 12 4 1000)).1.tempData = 0 ∧
      ¬ ((runDecoder ⟨2, 3, 5, false⟩ initialState ⟨0, 0, false⟩
            (sendDataEdges 12 4 1000)).1.bitCount = 4 ∧
         (runDecoder ⟨2, 3, 5, false⟩ initialState ⟨0, 0, false⟩
            (sendDataEdges 12 4 1000)).1.tempData = 12) := by
  refine ⟨by decide, by decide, ?_⟩
  intro h
  have h4 : (3 : Nat) = 4 := by
    have hb : (runDecoder ⟨2, 3, 5, false⟩ initialState ⟨0, 0, false⟩
        (sendDataEdges 12 4 1000)).1.bitCount = 3 := by decide
    rw [hb] at h
    exact h.1
  cases h4

/-- C1 (amended): with the decoder synchronized by the wake edge 25 µs before
the first bit slot (as `requestOneWire` produces — reset counters and
`lastEdge = t0 - 25`) and the node in Controller role, the edge sequence
produced by `sendData(v, w)` for `v < 2^w` is decoded bit-for-bit MSB-first:
for `w = addressWidth` the run accepts exactly `w` edges and leaves `v` in the
shift register (`bitCount = w`, `tempData = v`); for `w = dataWidth` the `w`
accepted edges complete a frame whose accumulated pattern is `v`, delivered
through `oneWirePayloadIn = signExtendData v` with the received flag set. -/
theorem claim_C1_amended (cfg : Config) (pay : Payloads) (v w t0 : Nat)
    (hrole : cfg.oneWireListener = false)
    (hw : w = addressWidth ∨ w = dataWidth) (hv : v < 2 ^ w)
    (ht : 25 ≤ t0) (htU : t0 + 80 * w < U32) :
    (w = addressWidth →
      runDecoder cfg ⟨t0 - 25, 0, 0, 0⟩ pay (sendDataEdges v w t0) =
        (⟨t0 + 80 * w - 25, w, 0, v⟩, pay, [])) ∧
    (w = dataWidth →
      runDecoder cfg ⟨t0 - 25, 0, 0, 0⟩ pay (sendDataEdges v w t0) =
        (⟨t0 + 80 * w - 25, 0, 0, 0⟩,
         { pay with oneWireMessageReceived := true,
                    oneWirePayloadIn := signExtendData v }, [])) := by
  constructor
  · intro hwa
    subst hwa
    have h := run_noDispatch cfg v hrole addressWidth 0 0 t0 true pay
      (by norm_num [addressWidth, dataWidth]) (by norm_num) ht htU
    rw [show sendDataEdges v addressWidth t0 =
      edgesFrom true (busWrites v addressWidth t0) from rfl, h]
    have hv4 : v % 2 ^ addressWidth = v := Nat.mod_eq_of_lt hv
    simp [hv4]
  · intro hwd
    subst hwd
    have h := run_dispatch cfg v hrole dataWidth 0 0 t0 true pay
      (by norm_num [dataWidth]) (by norm_num) (by norm_num) ht htU
    rw [show sendDataEdges v dataWidth t0 =
      edgesFrom true (busWrites v dataWidth t0) from rfl, h]
    have hv24 : v % 2 ^ dataWidth = v := Nat.mod_eq_of_lt hv
    simp [hv24]

/-- Witness for the amended C1 at `v = 12`, `w = addressWidth`, `t0 = 1000`:
the synced decoder accumulates `tempData = 12` with `bitCount = 4`. -/
theorem claim_C1_amended_witness :
    (12 : Nat) < 2 ^ addressWidth ∧ 25 ≤ 1000 ∧
      1000 + 80 * addressWidth < U32 ∧
      runDecoder ⟨2, 3, 5, false⟩ ⟨975, 0, 0, 0⟩ ⟨0, 0, false⟩
          (sendDataEdges 12 addressWidth 1000) =
        (⟨1295, 4, 0, 12⟩, ⟨0, 0, false⟩, []) := by
  refine ⟨by decide, by decide, by decide, ?_⟩
  have h := (claim_C1_amended ⟨2, 3, 5, false⟩ ⟨0, 0, false⟩ 12 addressWidth 1000
    rfl (Or.inl rfl) (by decide) (by decide) (by decide)).1 rfl
  rw [show (⟨975, 0, 0, 0⟩ : DecoderState) = ⟨1000 - 25, 0, 0, 0⟩ from rfl, h]
  rfl

end OneWire
